import Mathlib

/-!
Verification of the synthetic event stream generator
(`event_stream_generator.py`).

The program draws every sample from pseudorandom sources.  We embed each
source as an infinite stream of raw natural numbers together with a read
cursor; one draw reads the value at the cursor and advances it.  Three
sources exist at run time:

* `np`  — the numpy global generator, seeded with `np.random.seed(SEED)`;
  all numeric sampling (`randint`, `zipf`, `geometric`, `gamma`, `poisson`,
  `choice`, `permutation`) reads from it,
* `fk`  — the Faker generator, seeded with `Faker.seed(SEED)`; only
  `fake.sentence` reads from it,
* `ent` — the operating-system entropy pool; `uuid.uuid4()` reads from it.
  Per the Python standard library, `uuid4` tokens come from `os.urandom`
  and are *not* affected by any seed, which is why `ent` is a separate
  source not determined by `SEED`.

Distribution shapes are irrelevant to the verified properties, so each
numpy primitive is interpreted as a range-respecting function of the raw
draw (e.g. `zipf` yields `raw + 1`, an arbitrary positive rank; `randint
lo hi` yields `lo + raw % (hi - lo)`).  Timestamps are modelled as integer
epoch seconds, which is exactly the precision `strftime("%Y-%m-%dT%H:%M:%SZ")`
renders; the `NOW` anchor is the `endTs` field of an `Env` value, and
`START_TS = END_TS - 730*86400` as in the source.
-/

set_option maxRecDepth 100000

namespace EventStreamGen

/-- One pseudorandom source: an infinite raw stream plus a read cursor. -/
structure Rng where
  s : Nat → Nat
  i : Nat

/-- Read one raw value and advance the cursor. -/
def Rng.next (g : Rng) : Nat × Rng := (g.s g.i, ⟨g.s, g.i + 1⟩)

/-- The three random sources live at run time (numpy, Faker, OS entropy). -/
structure GenSt where
  np : Rng
  fk : Rng
  ent : Rng

/-- Draw a raw natural from the seeded numpy stream. -/
def npNat (st : GenSt) : Nat × GenSt :=
  (st.np.s st.np.i, { st with np := ⟨st.np.s, st.np.i + 1⟩ })

/-- Draw a raw natural from the seeded Faker stream. -/
def fkNat (st : GenSt) : Nat × GenSt :=
  (st.fk.s st.fk.i, { st with fk := ⟨st.fk.s, st.fk.i + 1⟩ })

/-- Draw a raw natural from the OS entropy stream (`uuid.uuid4`). -/
def entNat (st : GenSt) : Nat × GenSt :=
  (st.ent.s st.ent.i, { st with ent := ⟨st.ent.s, st.ent.i + 1⟩ })

/-- `np.random.randint(lo, hi)`: uniform integer in `[lo, hi)`.  All call
sites of the source have `lo < hi`. -/
def npRandint (lo hi : Int) (st : GenSt) : Int × GenSt :=
  (lo + Int.ofNat ((npNat st).1 % (hi - lo).toNat), (npNat st).2)

/-- Errors a run can surface.  `probsNotOne` models numpy's
`ValueError: probabilities do not sum to 1` raised by `np.random.choice`;
`outOfFuel` marks an execution that is still inside one of the source's
unbounded loops when its fuel runs out (i.e. the Python program has not
terminated yet); `zeroDiv` models Python's `ZeroDivisionError`;
`fileMissing` models `FileNotFoundError` from `os.path.getsize` when the
main loop never created the output file. -/
inductive GErr where
  | probsNotOne
  | outOfFuel
  | zeroDiv
  | fileMissing
deriving DecidableEq, Repr

/-! ## Module-level constants of the source -/

def TARGET_SIZE_MB : Nat := 100
def TARGET_BYTES : Nat := TARGET_SIZE_MB * 1024 * 1024

def USER_POOL_SIZE : Nat := 10000
def BOOK_POOL_SIZE : Nat := 5000

/- Probability tables are stored in hundredths: the source's two-decimal
float tables scaled by 100 exactly (0.45 ↦ 45, ...).  numpy's
`probabilities do not sum to 1` validation becomes `sum = 100`. -/

def EVENT_TYPES : List String := ["read_online", "download", "review", "search"]
def EVENT_PROBS : List Nat := [45, 15, 5, 35]

def PLATFORMS : List String := ["web_browser", "mobile_app"]
def PLATFORM_PROBS : List Nat := [60, 40]

def DL_FORMATS : List String := ["epub", "pdf", "mobi", "audiobook"]
def DL_FORMAT_PROBS : List Nat := [50, 30, 15, 5]

def DEVICE_OSES : List String := ["iOS", "Android", "Windows", "macOS", "Linux"]
def DEVICE_OS_PROBS : List Nat := [35, 45, 8, 9, 3]

def RATINGS : List Nat := [1, 2, 3, 4, 5]
def RATING_PROBS : List Nat := [5, 10, 25, 35, 25]

def SEARCH_VOCAB : List String :=
  ["dystopian", "sci-fi", "fantasy", "mystery", "romance", "historical",
   "self-help", "philosophy", "classic", "thriller", "nonfiction",
   "biography", "young-adult", "horror", "poetry", "business", "economics",
   "psychology", "productivity", "data-science", "machine-learning", "ai",
   "programming", "python", "java", "networks", "security", "cooking",
   "travel", "photography", "art", "music", "health", "fitness",
   "mindfulness", "education", "children", "graphic-novel"]

def GEOM_P : Rat := 3/10
def MAX_SESSION_LEN : Nat := 20

def DEFAULT_CHUNK_ROWS : Int := 200000

def SEED : Nat := 42

/-- The run-start wall clock (`NOW = datetime.now(timezone.utc)`), reduced
to the integer epoch second `END_TS = int(NOW.timestamp())`: the precision
at which every timestamp is rendered. -/
structure Env where
  endTs : Int

/-- `START_TS = int((NOW - timedelta(days=730)).timestamp())`; since the
offset is a whole number of seconds this is exactly `END_TS - 730*86400`. -/
def Env.startTs (e : Env) : Int := e.endTs - 63072000

/-- Tunable configuration of a run (the source hardcodes the module-level
defaults; the spec lists every one of these as a tunable).  `userMap` and
`bookMap` are the run's fixed random permutations `USER_ID_MAP` and
`BOOK_ID_MAP`. -/
structure Config where
  targetBytes : Nat
  userPool : Nat
  bookPool : Nat
  userMap : List Nat
  bookMap : List Nat
  eventProbs : List Nat
  platformProbs : List Nat
  dlFormatProbs : List Nat
  deviceOsProbs : List Nat
  ratingProbs : List Nat
  chunkRows : Int
  nSample : Nat

/-! ## Metadata values -/

/-- A JSON value as the metadata objects use them: an integer, a string,
or an array of strings. -/
inductive JVal where
  | jint : Int → JVal
  | jstr : String → JVal
  | jarr : List String → JVal
deriving DecidableEq, Repr

/-- One output row of the generator. -/
structure EventRecord where
  event_id : Nat
  event_timestamp : Int
  event_type : String
  user_id : Nat
  book_id : Nat
  session_id : Nat
  event_metadata : List (String × JVal)
deriving DecidableEq, Repr, Inhabited

/-! ## Sampling primitives built on the sources -/

/-- `np.random.choice(xs, p=probs)`: numpy validates that the probability
table sums to one and raises `ValueError` otherwise; the drawn index is an
arbitrary in-range function of the raw draw. -/
def choiceP (xs : List α) (dflt : α) (probs : List Nat) (st : GenSt) :
    Except GErr (α × GenSt) :=
  if probs.sum = 100 then
    .ok (xs.getD ((npNat st).1 % xs.length) dflt, (npNat st).2)
  else .error .probsNotOne

/-- `np.random.choice(pool, size=k, replace=False)`: `k` draws without
replacement, modelled as successive pick-and-remove. -/
def pickDistinct : Nat → List String → GenSt → List String × GenSt
  | 0, _, st => ([], st)
  | k + 1, pool, st =>
    let idx := (npNat st).1 % pool.length
    let res := pickDistinct k (pool.eraseIdx idx) (npNat st).2
    (pool.getD idx "" :: res.1, res.2)

/-- `np.random.permutation(arange(1, n+1))` style shuffle: repeatedly pick
a random remaining element.  The result is a permutation of the input. -/
def randPerm (pool : List Nat) (st : GenSt) : List Nat × GenSt :=
  if h : pool = [] then ([], st)
  else
    let idx := (npNat st).1 % pool.length
    let res := randPerm (pool.eraseIdx idx) (npNat st).2
    (pool.getD idx 0 :: res.1, res.2)
termination_by pool.length
decreasing_by
  have hp : 0 < pool.length := List.length_pos.mpr h
  rw [List.length_eraseIdx_of_lt (Nat.mod_lt _ hp)]
  omega

/-- The rejection-sampling identifier sampler `draw_zipf_id(max_id, a,
mapping)`.  `np.random.zipf(a)` yields an arbitrary positive rank
(`raw + 1`); a rank above `max_id` is discarded and the loop re-draws.
The Python loop is unbounded, so the embedding runs on fuel: `outOfFuel`
means the loop is still spinning after `fuel` attempts. -/
def draw_zipf_id (maxId : Nat) (a : Rat) (mapping : List Nat) :
    Nat → GenSt → Except GErr (Nat × GenSt)
  | 0, _ => .error .outOfFuel
  | fuel + 1, st =>
    let r := (npNat st).1 + 1
    if r ≤ maxId then .ok (mapping.getD (r - 1) 0, (npNat st).2)
    else draw_zipf_id maxId a mapping fuel (npNat st).2

/-- The accumulation loop of `draw_session_lengths`, structurally
recursive on an iteration bound.  Each drawn length is at least 1, so the
loop runs at most `n_target` iterations; `draw_session_lengths` therefore
instantiates `fuel := nTarget`, under which the fuel-exhausted branch is
unreachable and the function computes exactly the source's `while total <
n_target` loop. -/
def dslGo : Nat → Nat → GenSt → List Nat × Nat × GenSt
  | _, 0, st => ([], 0, st)
  | 0, _ + 1, st => ([], 0, st)
  | fuel + 1, n + 1, st =>
    (min ((npNat st).1 + 1) MAX_SESSION_LEN ::
       (dslGo fuel (n + 1 - min ((npNat st).1 + 1) MAX_SESSION_LEN)
         (npNat st).2).1,
     min ((npNat st).1 + 1) MAX_SESSION_LEN +
       (dslGo fuel (n + 1 - min ((npNat st).1 + 1) MAX_SESSION_LEN)
         (npNat st).2).2.1,
     (dslGo fuel (n + 1 - min ((npNat st).1 + 1) MAX_SESSION_LEN)
       (npNat st).2).2.2)

/-- Session planning `draw_session_lengths`: draw geometric lengths
(`np.random.geometric(p)` yields an arbitrary positive value, `raw + 1`),
clamp each to `MAX_SESSION_LEN`, and accumulate until the running total
reaches or exceeds the target.  Returns the lengths, the total, and the
advanced state, like the source returns `lengths, total`. -/
def draw_session_lengths (nTarget : Nat) (st : GenSt) :
    List Nat × Nat × GenSt :=
  dslGo nTarget nTarget st

/-- Modelled from the spec: the synthetic natural-language sentence
generator (Faker's `fake.sentence(nb_words)`), an external collaborator
whose corpus is not part of the repository.  A deterministic function of
the seeded Faker stream's draw and the requested word count: the draw
picks the words, and the sentence's length is driven by the word count
(`nbWords` six-letter words and a final period), as with the
corpus-backed generator — never by the raw draw's magnitude. -/
def fakeSentence (nbWords raw : Nat) : String :=
  String.intercalate " "
    (List.replicate nbWords ("lorem" ++ toString (raw % 10))) ++ "."

/-- The per-type metadata schema realised by the four branches of
`generate_chunk` (who builds `meta_obj`). -/
def schemaKeys (et : String) : List String :=
  if et = "read_online" then ["reading_duration_minutes", "platform"]
  else if et = "download" then ["format", "device_os", "app_version"]
  else if et = "review" then ["rating", "review_text"]
  else ["search_terms", "results_count"]

/-- The metadata synthesis branch of `generate_chunk`: given the event
type, build `meta_obj` exactly as the four `if/elif/else` arms do. -/
def metaFor (cfg : Config) (et : String) (st : GenSt) :
    Except GErr (List (String × JVal) × GenSt) :=
  if et = "read_online" then
    -- duration = int(np.clip(np.random.gamma(2.0, 20.0), 1, 300))
    let duration := min (max (npNat st).1 1) 300
    match choiceP PLATFORMS "" cfg.platformProbs (npNat st).2 with
    | .error e => .error e
    | .ok (platform, st1) =>
      .ok ([("reading_duration_minutes", .jint duration),
            ("platform", .jstr platform)], st1)
  else if et = "download" then
    match choiceP DL_FORMATS "" cfg.dlFormatProbs st with
    | .error e => .error e
    | .ok (fmt, st1) =>
      match choiceP DEVICE_OSES "" cfg.deviceOsProbs st1 with
      | .error e => .error e
      | .ok (osName, st2) =>
        let va := npRandint 1 4 st2
        let vb := npRandint 0 10 va.2
        let vc := npRandint 0 10 vb.2
        let appVersion :=
          toString va.1 ++ "." ++ toString vb.1 ++ "." ++ toString vc.1
        .ok ([("format", .jstr fmt), ("device_os", .jstr osName),
              ("app_version", .jstr appVersion)], vc.2)
  else if et = "review" then
    match choiceP RATINGS 0 cfg.ratingProbs st with
    | .error e => .error e
    | .ok (rating, st1) =>
      let nb := npRandint 8 20 st1
      let sraw := fkNat nb.2
      let reviewText := fakeSentence nb.1.toNat sraw.1
      .ok ([("rating", .jint rating), ("review_text", .jstr reviewText)],
           sraw.2)
  else
    let kraw := npRandint 1 4 st
    let terms := pickDistinct kraw.1.toNat SEARCH_VOCAB kraw.2
    -- results_count = int(np.clip(np.random.poisson(lam=12), 0, 500))
    let praw := npNat terms.2
    let resultsCount := min praw.1 500
    .ok ([("search_terms", .jarr terms.1),
          ("results_count", .jint (Int.ofNat resultsCount))], praw.2)

/-- The `size=slen` draws of `np.random.choice(EVENT_TYPES, ...)`. -/
def drawEtypesGo : Nat → GenSt → List String × GenSt
  | 0, st => ([], st)
  | k + 1, st =>
    let res := drawEtypesGo k (npNat st).2
    (EVENT_TYPES.getD ((npNat st).1 % EVENT_TYPES.length) "" :: res.1, res.2)

/-- `np.random.choice(EVENT_TYPES, size=slen, p=EVENT_PROBS)`: one table
validation, then `slen` categorical draws. -/
def drawEtypes (cfg : Config) (slen : Nat) (st : GenSt) :
    Except GErr (List String × GenSt) :=
  if cfg.eventProbs.sum = 100 then .ok (drawEtypesGo slen st)
  else .error .probsNotOne

/-- `rand_ts_last_two_years()`: a uniform epoch second in
`[START_TS, END_TS]` (the source draws `randint(START_TS, END_TS + 1)`). -/
def rand_ts_last_two_years (env : Env) (st : GenSt) : Int × GenSt :=
  npRandint env.startTs (env.endTs + 1) st

/-- The inner per-event loop of `generate_chunk`: for each drawn event
type, emit `event_id` (uuid4), draw `book_id`, synthesise the metadata,
record the row, then advance the session cursor by a uniform gap in
`[15, 1800]` seconds, clamping at `NOW`. -/
def genEvents (cfg : Config) (env : Env) (fuel : Nat) (sid uid : Nat) :
    List String → Int → GenSt → Except GErr (List EventRecord × GenSt)
  | [], _, st => .ok ([], st)
  | et :: rest, ts, st =>
    match draw_zipf_id cfg.bookPool (135/100) cfg.bookMap fuel (entNat st).2 with
    | .error e => .error e
    | .ok (book, st1) =>
      match metaFor cfg et st1 with
      | .error e => .error e
      | .ok (meta, st2) =>
        match genEvents cfg env fuel sid uid rest
            (if ts + (npRandint 15 1801 st2).1 > env.endTs then env.endTs
             else ts + (npRandint 15 1801 st2).1)
            (npRandint 15 1801 st2).2 with
        | .error e => .error e
        | .ok (evs, st3) =>
          .ok ({ event_id := (entNat st).1, event_timestamp := ts,
                 event_type := et, user_id := uid, book_id := book,
                 session_id := sid, event_metadata := meta } :: evs, st3)

/-- One session of `generate_chunk`'s outer loop: fresh session token
(uuid4), anchor user via the identifier sampler, initial timestamp
uniform over the two-year window, event types for the whole session, then
the per-event loop. -/
def genSession (cfg : Config) (env : Env) (fuel : Nat) (slen : Nat)
    (st : GenSt) : Except GErr (List EventRecord × GenSt) :=
  match draw_zipf_id cfg.userPool (125/100) cfg.userMap fuel (entNat st).2 with
  | .error e => .error e
  | .ok (uid, st1) =>
    match drawEtypes cfg slen (rand_ts_last_two_years env st1).2 with
    | .error e => .error e
    | .ok (etypes, st2) =>
      genEvents cfg env fuel (entNat st).1 uid etypes
        (rand_ts_last_two_years env st1).1 st2

/-- All sessions of one chunk, in order. -/
def genSessions (cfg : Config) (env : Env) (fuel : Nat) :
    List Nat → GenSt → Except GErr (List EventRecord × GenSt)
  | [], st => .ok ([], st)
  | slen :: rest, st =>
    match genSession cfg env fuel slen st with
    | .error e => .error e
    | .ok (recs1, st) =>
      match genSessions cfg env fuel rest st with
      | .error e => .error e
      | .ok (recs2, st) => .ok (recs1 ++ recs2, st)

/-- `generate_chunk(n_events)`: plan sessions, materialise all their
events, and truncate the batch back to exactly `n_events` rows if the
planning overshot. -/
def generate_chunk (cfg : Config) (env : Env) (fuel : Nat) (nEvents : Nat)
    (st : GenSt) : Except GErr (List EventRecord × GenSt) :=
  match genSessions cfg env fuel (draw_session_lengths nEvents st).1
      (draw_session_lengths nEvents st).2.2 with
  | .error e => .error e
  | .ok (recs, st) =>
    .ok (if recs.length > nEvents then recs.take nEvents else recs, st)

/-! ## Serialization (json.dumps with compact separators, pandas to_csv)

Two renderings of the source are fixed-width and are modelled as such,
because row byte counts depend on them: `str(uuid.uuid4())` is always 36
bytes, and `strftime("%Y-%m-%dT%H:%M:%SZ")` is always 20 bytes.  The
embedding renders a token as its decimal value left-padded to the uuid
text's 36 bytes, and a timestamp as its epoch second left-padded to the
timestamp text's 20 bytes: injective on the generated values and of
exactly the source's byte widths, which is all the verified properties
use. -/

/-- Left-pad a string with a filler character to a fixed width. -/
def padTo (w : Nat) (s : String) : String :=
  String.mk (List.replicate (w - s.length) '0') ++ s

/-- The fixed 36-byte text of a uuid token (`str(uuid.uuid4())`). -/
def uuidRender (t : Nat) : String := padTo 36 (toString t)

/-- The fixed 20-byte text of a timestamp
(`strftime("%Y-%m-%dT%H:%M:%SZ")` at second precision). -/
def tsRender (ts : Int) : String := padTo 20 (toString ts)

/-- UTF-8 byte length of a string (`len(s.encode("utf-8"))`,
`os.path.getsize` on our ASCII content). -/
def byteLen (s : String) : Nat := (s.data.map Char.utf8Size).sum

/-- Escaping inside a JSON string literal (backslashes and quotes, the
only characters `json.dumps` must escape in the generated text). -/
def jsonEscape (s : String) : String :=
  String.mk (s.data.foldr
    (fun c acc =>
      if c = '\\' then '\\' :: '\\' :: acc
      else if c = '"' then '\\' :: '"' :: acc
      else c :: acc) [])

/-- Render one JSON value (compact separators, as
`json.dumps(obj, separators=(",", ":"))` does). -/
def renderJVal : JVal → String
  | .jint n => toString n
  | .jstr s => "\"" ++ jsonEscape s ++ "\""
  | .jarr xs =>
    "[" ++ String.intercalate ","
      (xs.map (fun x => "\"" ++ jsonEscape x ++ "\"")) ++ "]"

/-- Render the metadata object (compact separators, no whitespace). -/
def renderMeta (m : List (String × JVal)) : String :=
  "\x7b" ++ String.intercalate ","
    (m.map (fun kv => "\"" ++ kv.1 ++ "\":" ++ renderJVal kv.2)) ++ "\x7d"

/-- Minimal CSV quoting, as pandas `to_csv` applies it: a field holding a
comma, quote or newline is wrapped in quotes with inner quotes doubled. -/
def csvField (s : String) : String :=
  if s.data.any (fun c => c = ',' ∨ c = '"' ∨ c = '\n') then
    "\"" ++ String.mk (s.data.foldr
      (fun c acc => if c = '"' then '"' :: '"' :: acc else c :: acc) [])
      ++ "\""
  else s

/-- The header row `to_csv` writes. -/
def csvHeader : String :=
  "event_id,event_timestamp,event_type,user_id,book_id,session_id,event_metadata\n"

/-- One CSV data row of a record, in the fixed column order. -/
def renderRow (r : EventRecord) : String :=
  String.intercalate ","
    [csvField (uuidRender r.event_id),
     csvField (tsRender r.event_timestamp),
     csvField r.event_type,
     csvField (toString r.user_id),
     csvField (toString r.book_id),
     csvField (uuidRender r.session_id),
     csvField (renderMeta r.event_metadata)] ++ "\n"

/-- The data rows of a chunk, header excluded. -/
def renderRows : List EventRecord → String
  | [] => ""
  | r :: rs => renderRow r ++ renderRows rs

/-- `estimate_avg_row_bytes(n_sample)`: generate a sample chunk, serialize
it without header, and divide its byte count by `max(1, len(df))`.  The
resulting mean is the exact nonnegative rational `bytes / max 1 rows`,
which the embedding carries as the (numerator, denominator) pair so the
writer's later divisions stay exact. -/
def estimate_avg_row_bytes (cfg : Config) (env : Env) (fuel nSample : Nat)
    (st : GenSt) : Except GErr ((Nat × Nat) × GenSt) :=
  match generate_chunk cfg env fuel nSample st with
  | .error e => .error e
  | .ok (df, st) =>
    .ok ((byteLen (renderRows df), max 1 df.length), st)

/-- The rational value an average pair denotes (what Python's float
holds). -/
def avgVal (p : Nat × Nat) : Rat := (p.1 : Rat) / (p.2 : Rat)

/-- Observable outcome of a completed run: the output file's content, the
row counter the program reports, and (for stating properties) the records
behind the rows, the estimated mean row bytes and the planned row
target. -/
structure RunResult where
  file : String
  rowsWritten : Nat
  records : List EventRecord
  avgRowBytes : Nat × Nat
  targetRows : Nat
deriving DecidableEq, Repr

/-- The main streaming loop (`while rows_written < target_rows`), on
fuel.  The output file was deleted at startup, so the first write (mode
"w", with header) equals appending the header and rows to the empty file;
later writes append rows only.  `first` tracks `first_write`. -/
def writeLoop (cfg : Config) (env : Env) (genFuel targetRows : Nat) :
    Nat → Nat → String → List EventRecord → Bool → GenSt →
    Except GErr (Nat × String × List EventRecord × Bool × GenSt)
  | 0, rowsWritten, content, recs, first, st =>
    if rowsWritten < targetRows then .error .outOfFuel
    else .ok (rowsWritten, content, recs, first, st)
  | fuel + 1, rowsWritten, content, recs, first, st =>
    if rowsWritten < targetRows then
      -- n_chunk = min(DEFAULT_CHUNK_ROWS, target_rows - rows_written)
      match generate_chunk cfg env genFuel
          (min cfg.chunkRows
            ((targetRows : Int) - (rowsWritten : Int))).toNat st with
      | .error e => .error e
      | .ok (df, st) =>
        writeLoop cfg env genFuel targetRows fuel (rowsWritten + df.length)
          (content ++ (if first then csvHeader else "") ++ renderRows df)
          (recs ++ df) false st
    else .ok (rowsWritten, content, recs, first, st)

/-- `main()`: estimate the mean row bytes, plan `target_rows`, stream
chunks until the target row count is reached, then perform the single
corrective top-up if the file is still below the byte budget.
`int(x)` on the nonnegative float quotients is modelled as the rational
floor.  If the loop body never ran the output file does not exist and
`os.path.getsize` raises (`fileMissing`). -/
def mainRun (cfg : Config) (env : Env) (genFuel loopFuel : Nat)
    (st : GenSt) : Except GErr RunResult :=
  match estimate_avg_row_bytes cfg env genFuel cfg.nSample st with
  | .error e => .error e
  | .ok (avg, st) =>
    -- `int(TARGET_BYTES / avg)`: Python raises ZeroDivisionError on a
    -- zero mean; otherwise floor(target / (bytes/rows)) = target*rows/bytes,
    -- which is `target_rows` below; `extra_rows` is the analogous floor of
    -- the remaining gap over the same mean, plus one.
    if avg.1 = 0 then .error .zeroDiv
    else
      match writeLoop cfg env genFuel (cfg.targetBytes * avg.2 / avg.1)
          loopFuel 0 "" [] true st with
      | .error e => .error e
      | .ok (rowsWritten, content, recs, first, st) =>
        if first then .error .fileMissing
        else
          if byteLen content < cfg.targetBytes then
            if (cfg.targetBytes - byteLen content) * avg.2 / avg.1 + 1 > 0 then
              match generate_chunk cfg env genFuel
                  ((cfg.targetBytes - byteLen content) * avg.2 / avg.1 + 1)
                  st with
              | .error e => .error e
              | .ok (df, _) =>
                .ok { file := content ++ renderRows df,
                      rowsWritten := rowsWritten + df.length,
                      records := recs ++ df,
                      avgRowBytes := avg,
                      targetRows := cfg.targetBytes * avg.2 / avg.1 }
            else
              .ok { file := content, rowsWritten := rowsWritten,
                    records := recs, avgRowBytes := avg,
                    targetRows := cfg.targetBytes * avg.2 / avg.1 }
          else
            .ok { file := content, rowsWritten := rowsWritten,
                  records := recs, avgRowBytes := avg,
                  targetRows := cfg.targetBytes * avg.2 / avg.1 }

/-! ## Helpers for stating concrete facts about runs -/

/-- The records of a chunk generation outcome (empty on error). -/
def recsOf (x : Except GErr (List EventRecord × GenSt)) : List EventRecord :=
  match x with
  | .ok (recs, _) => recs
  | .error _ => []

/-- The file content of a run outcome (empty on error). -/
def fileOf (x : Except GErr RunResult) : String :=
  match x with
  | .ok res => res.file
  | .error _ => ""

/-- The full result of a run, or `none` on error. -/
def resOf (x : Except GErr RunResult) : Option RunResult :=
  match x with
  | .ok res => some res
  | .error _ => none

/-- A constant raw stream with the cursor at zero. -/
def constRng (v : Nat) : Rng := ⟨fun _ => v, 0⟩

/-- A run state assembled from three stream functions, cursors at zero. -/
def stOf (np fk ent : Nat → Nat) : GenSt := ⟨⟨np, 0⟩, ⟨fk, 0⟩, ⟨ent, 0⟩⟩

/-! ## State-evolution bookkeeping

Generation only ever advances the three cursors; the stream functions
never change.  `Evolves st st'` records this. -/

/-- The state `st'` is reachable from `st`: same streams, cursors moved
forward (or kept). -/
def Evolves (st st' : GenSt) : Prop :=
  st'.np.s = st.np.s ∧ st'.fk.s = st.fk.s ∧ st'.ent.s = st.ent.s ∧
  st.np.i ≤ st'.np.i ∧ st.fk.i ≤ st'.fk.i ∧ st.ent.i ≤ st'.ent.i

theorem evolves_refl (st : GenSt) : Evolves st st :=
  ⟨rfl, rfl, rfl, le_refl _, le_refl _, le_refl _⟩

theorem Evolves.trans {s1 s2 s3 : GenSt} (h1 : Evolves s1 s2)
    (h2 : Evolves s2 s3) : Evolves s1 s3 := by
  obtain ⟨a1, b1, c1, d1, e1, f1⟩ := h1
  obtain ⟨a2, b2, c2, d2, e2, f2⟩ := h2
  exact ⟨a2.trans a1, b2.trans b1, c2.trans c1, d1.trans d2, e1.trans e2,
    f1.trans f2⟩

@[simp] theorem npNat_snd_np_s (st : GenSt) : (npNat st).2.np.s = st.np.s := rfl
@[simp] theorem npNat_snd_np_i (st : GenSt) :
    (npNat st).2.np.i = st.np.i + 1 := rfl
@[simp] theorem npNat_snd_fk (st : GenSt) : (npNat st).2.fk = st.fk := rfl
@[simp] theorem npNat_snd_ent (st : GenSt) : (npNat st).2.ent = st.ent := rfl

@[simp] theorem fkNat_snd_np (st : GenSt) : (fkNat st).2.np = st.np := rfl
@[simp] theorem fkNat_snd_fk_s (st : GenSt) : (fkNat st).2.fk.s = st.fk.s := rfl
@[simp] theorem fkNat_snd_fk_i (st : GenSt) :
    (fkNat st).2.fk.i = st.fk.i + 1 := rfl
@[simp] theorem fkNat_snd_ent (st : GenSt) : (fkNat st).2.ent = st.ent := rfl

@[simp] theorem entNat_snd_np (st : GenSt) : (entNat st).2.np = st.np := rfl
@[simp] theorem entNat_snd_fk (st : GenSt) : (entNat st).2.fk = st.fk := rfl
@[simp] theorem entNat_snd_ent_s (st : GenSt) :
    (entNat st).2.ent.s = st.ent.s := rfl
@[simp] theorem entNat_snd_ent_i (st : GenSt) :
    (entNat st).2.ent.i = st.ent.i + 1 := rfl
@[simp] theorem entNat_fst (st : GenSt) : (entNat st).1 = st.ent.s st.ent.i :=
  rfl

@[simp] theorem npRandint_snd (lo hi : Int) (st : GenSt) :
    (npRandint lo hi st).2 = (npNat st).2 := rfl

theorem npNat_evolves (st : GenSt) : Evolves st (npNat st).2 :=
  ⟨rfl, rfl, rfl, by simp, le_refl _, le_refl _⟩

theorem fkNat_evolves (st : GenSt) : Evolves st (fkNat st).2 :=
  ⟨rfl, rfl, rfl, le_refl _, by simp, le_refl _⟩

theorem entNat_evolves (st : GenSt) : Evolves st (entNat st).2 :=
  ⟨rfl, rfl, rfl, le_refl _, le_refl _, by simp⟩

/-- Bounds of the `randint` primitive: with a nonempty range the value is
in `[lo, hi)`. -/
theorem npRandint_mem (lo hi : Int) (st : GenSt) (hlt : lo < hi) :
    lo ≤ (npRandint lo hi st).1 ∧ (npRandint lo hi st).1 < hi := by
  unfold npRandint
  have h0 : 0 < (hi - lo).toNat := by omega
  have h1 : (npNat st).1 % (hi - lo).toNat < (hi - lo).toNat :=
    Nat.mod_lt _ h0
  have ht : (((hi - lo).toNat : Nat) : Int) = hi - lo :=
    Int.toNat_of_nonneg (by omega)
  have h1' : (((npNat st).1 % (hi - lo).toNat : Nat) : Int) <
      (((hi - lo).toNat : Nat) : Int) := by exact_mod_cast h1
  have hnn : (0 : Int) ≤ (((npNat st).1 % (hi - lo).toNat : Nat) : Int) :=
    Int.ofNat_nonneg _
  constructor
  · simpa using hnn
  · simp only [Int.ofNat_eq_coe]
    omega

/-! ## Lemmas about the identifier sampler -/

/-- A successful draw returns an accepted rank in `[1, max_id]` mapped
through the permutation, and touches only the numpy cursor. -/
theorem zipf_ok_spec {maxId : Nat} {a : Rat} {mapping : List Nat} :
    ∀ {fuel : Nat} {st : GenSt} {v : Nat} {st' : GenSt},
    draw_zipf_id maxId a mapping fuel st = .ok (v, st') →
    (∃ r, 1 ≤ r ∧ r ≤ maxId ∧ v = mapping.getD (r - 1) 0) ∧
    st'.np.s = st.np.s ∧ st.np.i ≤ st'.np.i ∧ st'.fk = st.fk ∧
    st'.ent = st.ent := by
  intro fuel
  induction fuel with
  | zero => intro st v st' h; simp [draw_zipf_id] at h
  | succ fuel ih =>
    intro st v st' h
    rw [draw_zipf_id] at h
    by_cases hle : (npNat st).1 + 1 ≤ maxId
    · rw [if_pos hle] at h
      simp only [Except.ok.injEq, Prod.mk.injEq] at h
      obtain ⟨hv, hst⟩ := h
      subst hv; subst hst
      exact ⟨⟨(npNat st).1 + 1, by omega, hle, rfl⟩, rfl, by simp, rfl, rfl⟩
    · rw [if_neg hle] at h
      obtain ⟨hex, hs, hi, hfk, hent⟩ := ih h
      refine ⟨hex, by simp [hs], ?_, by simp [hfk], by simp [hent]⟩
      simp at hi; omega

/-- With an empty pool every drawn rank is rejected: the loop never
finishes, whatever the fuel. -/
theorem zipf_pool0 (a : Rat) (mapping : List Nat) :
    ∀ (fuel : Nat) (st : GenSt),
    draw_zipf_id 0 a mapping fuel st = .error .outOfFuel := by
  intro fuel
  induction fuel with
  | zero => intro st; rfl
  | succ fuel ih =>
    intro st
    rw [draw_zipf_id]
    rw [if_neg (by omega)]
    exact ih _

/-- The rejection loop terminates (for some fuel) exactly when the numpy
stream eventually offers a rank within the pool. -/
theorem zipf_terminates_iff (maxId : Nat) (a : Rat) (mapping : List Nat)
    (st : GenSt) :
    (∃ fuel v st', draw_zipf_id maxId a mapping fuel st = .ok (v, st')) ↔
    (∃ k, st.np.s (st.np.i + k) + 1 ≤ maxId) := by
  constructor
  · rintro ⟨fuel, v, st', h⟩
    induction fuel generalizing st with
    | zero => simp [draw_zipf_id] at h
    | succ fuel ih =>
      rw [draw_zipf_id] at h
      by_cases hle : (npNat st).1 + 1 ≤ maxId
      · exact ⟨0, by simpa [npNat] using hle⟩
      · rw [if_neg hle] at h
        obtain ⟨k, hk⟩ := ih _ h
        refine ⟨k + 1, ?_⟩
        simpa [npNat, Nat.add_assoc, Nat.add_comm 1 k] using hk
  · rintro ⟨k, hk⟩
    induction k generalizing st with
    | zero =>
      refine ⟨1, mapping.getD ((npNat st).1 + 1 - 1) 0, (npNat st).2, ?_⟩
      rw [draw_zipf_id]
      rw [if_pos (by simpa [npNat] using hk)]
    | succ k ih =>
      by_cases hle : (npNat st).1 + 1 ≤ maxId
      · refine ⟨1, mapping.getD ((npNat st).1 + 1 - 1) 0, (npNat st).2, ?_⟩
        rw [draw_zipf_id, if_pos hle]
      · obtain ⟨fuel, v, st', h⟩ := ih ((npNat st).2)
          (by simpa [npNat, Nat.add_assoc, Nat.add_comm 1 k] using hk)
        refine ⟨fuel + 1, v, st', ?_⟩
        rw [draw_zipf_id, if_neg hle]
        exact h

/-! ## Lemmas about session planning -/

/-- The accumulation loop with enough fuel reaches the target, reports
the exact total, keeps every length in `[1, MAX_SESSION_LEN]`, and
touches only the numpy cursor. -/
theorem dslGo_spec :
    ∀ (fuel n : Nat) (st : GenSt), n ≤ fuel →
    n ≤ (dslGo fuel n st).2.1 ∧
    (dslGo fuel n st).2.1 = (dslGo fuel n st).1.sum ∧
    (∀ l ∈ (dslGo fuel n st).1, 1 ≤ l ∧ l ≤ MAX_SESSION_LEN) ∧
    (dslGo fuel n st).2.2.np.s = st.np.s ∧
    st.np.i ≤ (dslGo fuel n st).2.2.np.i ∧
    (dslGo fuel n st).2.2.fk = st.fk ∧
    (dslGo fuel n st).2.2.ent = st.ent := by
  intro fuel
  induction fuel with
  | zero =>
    intro n st hn
    have : n = 0 := by omega
    subst this
    simp [dslGo]
  | succ fuel ih =>
    intro n st hn
    match n with
    | 0 => simp [dslGo]
    | n + 1 =>
      have hlen : 1 ≤ min ((npNat st).1 + 1) MAX_SESSION_LEN := by
        refine Nat.le_min.mpr ⟨by omega, ?_⟩
        simp [MAX_SESSION_LEN]
      obtain ⟨h1, h2, h3, h4, h5, h6, h7⟩ :=
        ih (n + 1 - min ((npNat st).1 + 1) MAX_SESSION_LEN) (npNat st).2
          (by omega)
      rw [dslGo]
      dsimp only
      refine ⟨by omega, ?_, ?_, ?_, ?_, ?_, ?_⟩
      · simp only [List.sum_cons]; omega
      · intro l hl
        rcases List.mem_cons.mp hl with hl | hl
        · subst hl; exact ⟨hlen, Nat.min_le_right _ _⟩
        · exact h3 l hl
      · simpa using h4
      · simp only [npNat_snd_np_i] at h5; omega
      · simpa using h6
      · simpa using h7

/-- Session planning reaches the target, reports the exact total, keeps
every length in `[1, MAX_SESSION_LEN]`, and touches only the numpy
cursor. -/
theorem dsl_spec (nTarget : Nat) (st : GenSt) :
    nTarget ≤ (draw_session_lengths nTarget st).2.1 ∧
    (draw_session_lengths nTarget st).2.1 =
      (draw_session_lengths nTarget st).1.sum ∧
    (∀ l ∈ (draw_session_lengths nTarget st).1,
      1 ≤ l ∧ l ≤ MAX_SESSION_LEN) ∧
    (draw_session_lengths nTarget st).2.2.np.s = st.np.s ∧
    st.np.i ≤ (draw_session_lengths nTarget st).2.2.np.i ∧
    (draw_session_lengths nTarget st).2.2.fk = st.fk ∧
    (draw_session_lengths nTarget st).2.2.ent = st.ent :=
  dslGo_spec nTarget nTarget st (le_refl _)

/-! ## Lemmas about the categorical and metadata samplers -/

theorem choiceP_ok {α : Type} {xs : List α} {dflt : α} {p : List Nat}
    {st : GenSt} {v : α} {st' : GenSt}
    (h : choiceP xs dflt p st = .ok (v, st')) :
    st' = (npNat st).2 ∧ p.sum = 100 ∧ (xs ≠ [] → v ∈ xs) := by
  unfold choiceP at h
  split at h
  · simp only [Except.ok.injEq, Prod.mk.injEq] at h
    obtain ⟨hv, hst⟩ := h
    subst hv; subst hst
    refine ⟨rfl, by assumption, fun hne => ?_⟩
    have hlt : (npNat st).1 % xs.length < xs.length :=
      Nat.mod_lt _ (List.length_pos.mpr hne)
    rw [List.getD_eq_getElem xs dflt hlt]
    exact List.getElem_mem hlt
  · cases h

theorem pickDistinct_state (k : Nat) :
    ∀ (pool : List String) (st : GenSt),
    (pickDistinct k pool st).2.np.s = st.np.s ∧
    st.np.i ≤ (pickDistinct k pool st).2.np.i ∧
    (pickDistinct k pool st).2.fk = st.fk ∧
    (pickDistinct k pool st).2.ent = st.ent := by
  induction k with
  | zero => intro pool st; exact ⟨rfl, le_refl _, rfl, rfl⟩
  | succ k ih =>
    intro pool st
    obtain ⟨h1, h2, h3, h4⟩ :=
      ih (pool.eraseIdx ((npNat st).1 % pool.length)) (npNat st).2
    rw [pickDistinct]
    dsimp only
    refine ⟨by simpa using h1, ?_, by simpa using h3, by simpa using h4⟩
    simp only [npNat_snd_np_i] at h2; omega

theorem drawEtypesGo_spec (k : Nat) :
    ∀ (st : GenSt),
    (∀ e ∈ (drawEtypesGo k st).1, e ∈ EVENT_TYPES) ∧
    (drawEtypesGo k st).1.length = k ∧
    (drawEtypesGo k st).2.np.s = st.np.s ∧
    st.np.i ≤ (drawEtypesGo k st).2.np.i ∧
    (drawEtypesGo k st).2.fk = st.fk ∧
    (drawEtypesGo k st).2.ent = st.ent := by
  induction k with
  | zero =>
    intro st
    exact ⟨(by intro e he; cases he), rfl, rfl, le_refl _, rfl, rfl⟩
  | succ k ih =>
    intro st
    obtain ⟨h1, h2, h3, h4, h5, h6⟩ := ih (npNat st).2
    rw [drawEtypesGo]
    dsimp only
    refine ⟨?_, by simpa using h2, by simpa using h3, ?_,
      by simpa using h5, by simpa using h6⟩
    · intro e he
      rcases List.mem_cons.mp he with he | he
      · subst he
        have hlt : (npNat st).1 % EVENT_TYPES.length < EVENT_TYPES.length := by
          refine Nat.mod_lt _ ?_
          simp [EVENT_TYPES]
        rw [List.getD_eq_getElem _ _ hlt]
        exact List.getElem_mem hlt
      · exact h1 e he
    · simp only [npNat_snd_np_i] at h4; omega

/-- Every successful metadata synthesis yields exactly the keys of the
per-type schema, and touches only the numpy and Faker cursors. -/
theorem metaFor_spec {cfg : Config} {et : String} {st : GenSt}
    {m : List (String × JVal)} {st' : GenSt}
    (h : metaFor cfg et st = .ok (m, st')) :
    m.map Prod.fst = schemaKeys et ∧
    st'.np.s = st.np.s ∧ st.np.i ≤ st'.np.i ∧
    st'.fk.s = st.fk.s ∧ st.fk.i ≤ st'.fk.i ∧
    st'.ent = st.ent := by
  unfold metaFor at h
  by_cases h1 : et = "read_online"
  · rw [if_pos h1] at h
    split at h
    · cases h
    · rename_i platform st1 heq
      obtain ⟨hst, _, _⟩ := choiceP_ok heq
      simp only [Except.ok.injEq, Prod.mk.injEq] at h
      obtain ⟨hm, hst'⟩ := h
      subst hm; subst hst'; subst hst
      refine ⟨by simp [schemaKeys, h1], by simp,
        (by simp only [npNat_snd_np_i]; omega), by simp, by simp, by simp⟩
  · rw [if_neg h1] at h
    by_cases h2 : et = "download"
    · rw [if_pos h2] at h
      split at h
      · cases h
      · rename_i fmt st1 heq1
        split at h
        · cases h
        · rename_i osName st2 heq2
          obtain ⟨hst1, _, _⟩ := choiceP_ok heq1
          obtain ⟨hst2, _, _⟩ := choiceP_ok heq2
          simp only [Except.ok.injEq, Prod.mk.injEq] at h
          obtain ⟨hm, hst'⟩ := h
          subst hm; subst hst'; subst hst1; subst hst2
          refine ⟨by simp [schemaKeys, h1, h2], by simp,
            (by simp only [npNat_snd_np_i, npRandint_snd]; omega), by simp,
            by simp, by simp⟩
    · rw [if_neg h2] at h
      by_cases h3 : et = "review"
      · rw [if_pos h3] at h
        split at h
        · cases h
        · rename_i rating st1 heq
          obtain ⟨hst1, _, _⟩ := choiceP_ok heq
          simp only [Except.ok.injEq, Prod.mk.injEq] at h
          obtain ⟨hm, hst'⟩ := h
          subst hm; subst hst'; subst hst1
          refine ⟨by simp [schemaKeys, h1, h2, h3], by simp, ?_, by simp,
            ?_, by simp⟩
          · simp only [fkNat_snd_np, npRandint_snd, npNat_snd_np_i]
            omega
          · simp only [fkNat_snd_fk_i, npRandint_snd, npNat_snd_fk]
            omega
      · rw [if_neg h3] at h
        simp only [Except.ok.injEq, Prod.mk.injEq] at h
        obtain ⟨hm, hst'⟩ := h
        subst hm; subst hst'
        obtain ⟨p1, p2, p3, p4⟩ :=
          pickDistinct_state (npRandint 1 4 st).1.toNat SEARCH_VOCAB
            (npRandint 1 4 st).2
        simp only [npRandint_snd] at p1 p2 p3 p4
        refine ⟨by simp [schemaKeys, h1, h2, h3], by simpa using p1, ?_,
          by simp [p3], ?_, by simp [p4]⟩
        · simp only [npRandint_snd, npNat_snd_np_i] at p2 ⊢
          omega
        · simp [p3]

/-! ## Lemmas about event and session generation -/

theorem zipf_evolves {maxId : Nat} {a : Rat} {mapping : List Nat}
    {fuel : Nat} {st : GenSt} {v : Nat} {st' : GenSt}
    (h : draw_zipf_id maxId a mapping fuel st = .ok (v, st')) :
    Evolves st st' := by
  obtain ⟨_, hs, hi, hfk, hent⟩ := zipf_ok_spec h
  exact ⟨hs, by rw [hfk], by rw [hent], hi, by rw [hfk], by rw [hent]⟩

theorem metaFor_evolves {cfg : Config} {et : String} {st : GenSt}
    {m : List (String × JVal)} {st' : GenSt}
    (h : metaFor cfg et st = .ok (m, st')) : Evolves st st' := by
  obtain ⟨_, h2, h3, h4, h5, h6⟩ := metaFor_spec h
  exact ⟨h2, h4, by rw [h6], h3, h5, by rw [h6]⟩

/-- Everything the per-event loop guarantees: one record per event type,
constant session and user, schema-exact metadata keys, window-bounded and
non-decreasing timestamps, mapped in-pool book ranks, and forward-only
state evolution. -/
theorem genEvents_spec {cfg : Config} {env : Env} {fuel : Nat}
    {sid uid : Nat} :
    ∀ {etypes : List String} {ts : Int} {st : GenSt}
      {recs : List EventRecord} {st' : GenSt},
    genEvents cfg env fuel sid uid etypes ts st = .ok (recs, st') →
    env.startTs ≤ ts → ts ≤ env.endTs →
    recs.length = etypes.length ∧
    (∀ r ∈ recs,
      r.session_id = sid ∧ r.user_id = uid ∧
      r.event_type ∈ etypes ∧
      r.event_metadata.map Prod.fst = schemaKeys r.event_type ∧
      env.startTs ≤ r.event_timestamp ∧ r.event_timestamp ≤ env.endTs ∧
      ts ≤ r.event_timestamp ∧
      (∃ k, 1 ≤ k ∧ k ≤ cfg.bookPool ∧
        r.book_id = cfg.bookMap.getD (k - 1) 0)) ∧
    List.Pairwise (fun a b => a.event_timestamp ≤ b.event_timestamp) recs ∧
    Evolves st st' := by
  intro etypes
  induction etypes with
  | nil =>
    intro ts st recs st' h _ _
    simp only [genEvents, Except.ok.injEq, Prod.mk.injEq] at h
    obtain ⟨hr, hst⟩ := h
    subst hr; subst hst
    exact ⟨rfl, (by intro r hr; cases hr), List.Pairwise.nil, evolves_refl st⟩
  | cons et rest ih =>
    intro ts st recs st' h hstart hend
    rw [genEvents] at h
    split at h
    · cases h
    · rename_i book st1 heq1
      split at h
      · cases h
      · rename_i meta st2 heq2
        split at h
        · cases h
        · rename_i evs st3 heq3
          simp only [Except.ok.injEq, Prod.mk.injEq] at h
          obtain ⟨hr, hst⟩ := h
          subst hr; subst hst
          -- the gap draw and the clamped cursor
          have hgap := npRandint_mem 15 1801 st2 (by norm_num)
          set gap := (npRandint 15 1801 st2).1 with hgapdef
          set ts' := if ts + gap > env.endTs then env.endTs else ts + gap
            with hts'
          have hts'start : env.startTs ≤ ts' := by
            rw [hts']; split
            · unfold Env.startTs; omega
            · omega
          have hts'end : ts' ≤ env.endTs := by
            rw [hts']; split
            · exact le_refl _
            · omega
          have htsle : ts ≤ ts' := by
            rw [hts']; split
            · omega
            · omega
          obtain ⟨ihlen, ihmem, ihpw, ihev⟩ := ih heq3 hts'start hts'end
          obtain ⟨hkb, hz2, hz3, hz4, hz5⟩ := zipf_ok_spec heq1
          have hmspec := metaFor_spec heq2
          refine ⟨by simpa using ihlen, ?_, ?_, ?_⟩
          · intro r hrmem
            rcases List.mem_cons.mp hrmem with hr | hr
            · subst hr
              exact ⟨rfl, rfl, List.mem_cons_self _ _, hmspec.1, hstart,
                hend, le_refl _, hkb⟩
            · obtain ⟨c1, c2, c3, c4, c5, c6, c7, c8⟩ := ihmem r hr
              exact ⟨c1, c2, List.mem_cons_of_mem _ c3, c4, c5, c6,
                le_trans htsle c7, c8⟩
          · refine List.pairwise_cons.mpr ⟨?_, ihpw⟩
            intro b hb
            have := (ihmem b hb).2.2.2.2.2.2.1
            simpa using le_trans htsle this
          · refine Evolves.trans (entNat_evolves st) ?_
            refine Evolves.trans (zipf_evolves heq1) ?_
            refine Evolves.trans (metaFor_evolves heq2) ?_
            refine Evolves.trans ?_ ihev
            simpa using npNat_evolves st2

/-- Everything one session guarantees: `slen` records, one session token
(the entropy value at the session's start cursor), one anchor user drawn
through the user permutation, schema-exact metadata, window-bounded
non-decreasing timestamps, in-pool book ranks, and a strictly advanced
entropy cursor. -/
theorem genSession_spec {cfg : Config} {env : Env} {fuel slen : Nat}
    {st : GenSt} {recs : List EventRecord} {st' : GenSt}
    (h : genSession cfg env fuel slen st = .ok (recs, st')) :
    recs.length = slen ∧
    (∃ uid, (∃ k, 1 ≤ k ∧ k ≤ cfg.userPool ∧
        uid = cfg.userMap.getD (k - 1) 0) ∧
      ∀ r ∈ recs, r.user_id = uid) ∧
    (∀ r ∈ recs, r.session_id = st.ent.s st.ent.i) ∧
    (∀ r ∈ recs,
      r.event_type ∈ EVENT_TYPES ∧
      r.event_metadata.map Prod.fst = schemaKeys r.event_type ∧
      env.startTs ≤ r.event_timestamp ∧ r.event_timestamp ≤ env.endTs ∧
      (∃ k, 1 ≤ k ∧ k ≤ cfg.bookPool ∧
        r.book_id = cfg.bookMap.getD (k - 1) 0)) ∧
    List.Pairwise (fun a b => a.event_timestamp ≤ b.event_timestamp) recs ∧
    Evolves st st' ∧ st.ent.i < st'.ent.i := by
  rw [genSession] at h
  split at h
  · cases h
  · rename_i uid st1 heq1
    split at h
    · cases h
    · rename_i etypes st2 heq2
      -- the etypes come from the validated categorical draw
      have hets : etypes = (drawEtypesGo slen (rand_ts_last_two_years env st1).2).1 ∧
          st2 = (drawEtypesGo slen (rand_ts_last_two_years env st1).2).2 := by
        unfold drawEtypes at heq2
        split at heq2
        · simp only [Except.ok.injEq] at heq2
          exact ⟨(congrArg Prod.fst heq2).symm, (congrArg Prod.snd heq2).symm⟩
        · cases heq2
      obtain ⟨hets1, hets2⟩ := hets
      obtain ⟨go1, go2, go3, go4, go5, go6⟩ :=
        drawEtypesGo_spec slen (rand_ts_last_two_years env st1).2
      -- the initial timestamp is uniform over the window
      have hlo : env.startTs < env.endTs + 1 := by unfold Env.startTs; omega
      have hts0 := npRandint_mem env.startTs (env.endTs + 1) st1 hlo
      have hts0' : (rand_ts_last_two_years env st1).1 ≤ env.endTs := by
        have := hts0.2; unfold rand_ts_last_two_years; omega
      have hts0'' : env.startTs ≤ (rand_ts_last_two_years env st1).1 :=
        hts0.1
      obtain ⟨glen, gmem, gpw, gev⟩ := genEvents_spec h hts0'' hts0'
      obtain ⟨zk, zs, zi, zfk, zent⟩ := zipf_ok_spec heq1
      refine ⟨?_, ?_, ?_, ?_, gpw, ?_, ?_⟩
      · rw [glen, hets1, go2]
      · exact ⟨uid, zk, fun r hr => (gmem r hr).2.1⟩
      · intro r hr
        simpa using (gmem r hr).1
      · intro r hr
        obtain ⟨_, _, c3, c4, c5, c6, _, c8⟩ := gmem r hr
        refine ⟨?_, c4, c5, c6, c8⟩
        rw [hets1] at c3
        exact go1 _ c3
      · -- evolution of the full session
        refine Evolves.trans (entNat_evolves st) ?_
        refine Evolves.trans (zipf_evolves heq1) ?_
        -- the npRandint of the initial timestamp sits between st1 and go
        have hev1 : Evolves st1 (rand_ts_last_two_years env st1).2 := by
          unfold rand_ts_last_two_years
          simpa using npNat_evolves st1
        have hev2' : Evolves (rand_ts_last_two_years env st1).2 st2 := by
          rw [hets2]
          exact ⟨go3, by rw [go5], by rw [go6], go4, by rw [go5], by rw [go6]⟩
        exact Evolves.trans hev1 (Evolves.trans hev2' gev)
      · -- the session's entropy cursor strictly advances at the token draw
        have h1 : (entNat st).2.ent.i = st.ent.i + 1 := by simp
        have h2 : (entNat st).2.ent.i ≤ st1.ent.i := by rw [zent]
        have h3 : st1.ent.i ≤ st2.ent.i := by
          rw [hets2, go6]
          unfold rand_ts_last_two_years
          simp
        have h4 : st2.ent.i ≤ st'.ent.i := gev.2.2.2.2.2
        omega

/-- Pairwise relation between records emitted in order: either they agree
on user and their timestamps are ordered (the in-session case), or their
session tokens were drawn at distinct entropy cursor positions (the
cross-session case). -/
def SessRel (s : Nat → Nat) (a b : EventRecord) : Prop :=
  (a.user_id = b.user_id ∧ a.event_timestamp ≤ b.event_timestamp) ∨
  (∃ k l, k < l ∧ a.session_id = s k ∧ b.session_id = s l)

/-- The per-record guarantees every materialised event enjoys. -/
def RecOk (cfg : Config) (env : Env) (r : EventRecord) : Prop :=
  (∃ k, 1 ≤ k ∧ k ≤ cfg.userPool ∧ r.user_id = cfg.userMap.getD (k - 1) 0) ∧
  (∃ k, 1 ≤ k ∧ k ≤ cfg.bookPool ∧ r.book_id = cfg.bookMap.getD (k - 1) 0) ∧
  r.event_type ∈ EVENT_TYPES ∧
  r.event_metadata.map Prod.fst = schemaKeys r.event_type ∧
  env.startTs ≤ r.event_timestamp ∧ r.event_timestamp ≤ env.endTs

/-- Everything the session loop guarantees for a whole chunk body. -/
theorem genSessions_spec {cfg : Config} {env : Env} {fuel : Nat} :
    ∀ {lens : List Nat} {st : GenSt} {recs : List EventRecord} {st' : GenSt},
    genSessions cfg env fuel lens st = .ok (recs, st') →
    recs.length = lens.sum ∧
    (∀ r ∈ recs, ∃ k, st.ent.i ≤ k ∧ k < st'.ent.i ∧
      r.session_id = st.ent.s k) ∧
    (∀ r ∈ recs, RecOk cfg env r) ∧
    List.Pairwise (SessRel st.ent.s) recs ∧
    Evolves st st' := by
  intro lens
  induction lens with
  | nil =>
    intro st recs st' h
    simp only [genSessions, Except.ok.injEq, Prod.mk.injEq] at h
    obtain ⟨hr, hst⟩ := h
    subst hr; subst hst
    exact ⟨rfl, (by intro r hr; cases hr), (by intro r hr; cases hr),
      List.Pairwise.nil, evolves_refl st⟩
  | cons slen rest ih =>
    intro st recs st' h
    rw [genSessions] at h
    split at h
    · cases h
    · rename_i recs1 st1 heq1
      split at h
      · cases h
      · rename_i recs2 st2 heq2
        simp only [Except.ok.injEq, Prod.mk.injEq] at h
        obtain ⟨hr, hst⟩ := h
        subst hr; subst hst
        obtain ⟨s1len, ⟨uid, huid, huall⟩, hsid1, hbundle1, hpw1, hev1,
          hstrict⟩ := genSession_spec heq1
        obtain ⟨s2len, hsid2, hbundle2, hpw2, hev2⟩ := ih heq2
        have hs1s : st1.ent.s = st.ent.s := hev1.2.2.1
        refine ⟨?_, ?_, ?_, ?_, Evolves.trans hev1 hev2⟩
        · simp [s1len, s2len]
        · intro r hr
          rcases List.mem_append.mp hr with hr | hr
          · refine ⟨st.ent.i, le_refl _, ?_, hsid1 r hr⟩
            have := hev2.2.2.2.2.2
            omega
          · obtain ⟨k, hk1, hk2, hk3⟩ := hsid2 r hr
            refine ⟨k, ?_, hk2, by rw [hk3, hs1s]⟩
            omega
        · intro r hr
          rcases List.mem_append.mp hr with hr | hr
          · obtain ⟨c1, c2, c3, c4, c5⟩ := hbundle1 r hr
            obtain ⟨k, a, b, c⟩ := huid
            exact ⟨⟨k, a, b, by rw [huall r hr, c]⟩, c5, c1, c2, c3, c4⟩
          · exact hbundle2 r hr
        · refine List.pairwise_append.mpr ⟨?_, ?_, ?_⟩
          · -- inside one session: same user, ordered timestamps
            refine List.Pairwise.imp_of_mem ?_ hpw1
            intro a b ha hb hts
            exact Or.inl ⟨by rw [huall a ha, huall b hb], hts⟩
          · simpa [SessRel, hs1s] using hpw2
          · -- across sessions: tokens drawn at distinct cursor positions
            intro a ha b hb
            obtain ⟨k, hk1, hk2, hk3⟩ := hsid2 b hb
            refine Or.inr ⟨st.ent.i, k, ?_, hsid1 a ha, by rw [hk3, hs1s]⟩
            omega

/-- Everything a successful chunk generation guarantees: exactly the
requested number of rows, per-record well-formedness, the cross-session
pairwise relation, and forward-only state evolution. -/
theorem generate_chunk_spec {cfg : Config} {env : Env} {fuel n : Nat}
    {st : GenSt} {recs : List EventRecord} {st' : GenSt}
    (h : generate_chunk cfg env fuel n st = .ok (recs, st')) :
    recs.length = n ∧
    (∀ r ∈ recs, RecOk cfg env r) ∧
    List.Pairwise (SessRel st.ent.s) recs ∧
    Evolves st st' := by
  rw [generate_chunk] at h
  split at h
  · cases h
  · rename_i recs0 st0 heq
    simp only [Except.ok.injEq, Prod.mk.injEq] at h
    obtain ⟨hr, hst⟩ := h
    subst hr; subst hst
    obtain ⟨d1, d2, d3, d4, d5, d6, d7⟩ := dsl_spec n st
    obtain ⟨glen, gsid, gok, gpw, gev⟩ := genSessions_spec heq
    have hents : (draw_session_lengths n st).2.2.ent.s = st.ent.s := by
      rw [d7]
    have hlen0 : n ≤ recs0.length := by rw [glen]; omega
    have hdslev : Evolves st (draw_session_lengths n st).2.2 :=
      ⟨d4, by rw [d6], by rw [d7], d5, by rw [d6], by rw [d7]⟩
    rw [hents] at gpw
    constructor
    · split
      · simp only [List.length_take]
        omega
      · omega
    refine ⟨?_, ?_, Evolves.trans hdslev gev⟩
    · intro r hrm
      refine gok r ?_
      revert hrm
      split
      · exact fun hrm => (List.take_sublist n recs0).subset hrm
      · exact id
    · split
      · exact gpw.sublist (List.take_sublist n recs0)
      · exact gpw

/-- A value read through the fixed permutation at an in-pool rank lies in
`[1, pool]`. -/
theorem getD_perm_range_bounds {map : List Nat} {pool k : Nat}
    (hperm : map.Perm (List.range' 1 pool)) (h1 : 1 ≤ k) (h2 : k ≤ pool) :
    1 ≤ map.getD (k - 1) 0 ∧ map.getD (k - 1) 0 ≤ pool := by
  have hlen : map.length = pool := by
    rw [hperm.length_eq]
    simp
  have hidx : k - 1 < map.length := by omega
  rw [List.getD_eq_getElem _ _ hidx]
  have hmem : map[k - 1] ∈ List.range' 1 pool :=
    hperm.subset (List.getElem_mem hidx)
  have := List.mem_range'_1.mp hmem
  omega

/-! ## Concrete fixtures used to exhibit runs of the program -/

/-- Does a chunk generation succeed? -/
def isOkE (x : Except GErr (List EventRecord × GenSt)) : Bool :=
  match x with
  | .ok _ => true
  | .error _ => false

/-- Does a full run succeed? -/
def isOkR (x : Except GErr RunResult) : Bool :=
  match x with
  | .ok _ => true
  | .error _ => false

/-- A small tunable configuration (one-element pools with the identity
permutation, two-row chunks, one-row size sample) used to run the program
on concrete inputs. -/
def wCfg : Config :=
  { targetBytes := 500, userPool := 1, bookPool := 1, userMap := [1],
    bookMap := [1], eventProbs := EVENT_PROBS,
    platformProbs := PLATFORM_PROBS, dlFormatProbs := DL_FORMAT_PROBS,
    deviceOsProbs := DEVICE_OS_PROBS, ratingProbs := RATING_PROBS,
    chunkRows := 2, nSample := 1 }

/-- A fixed run-start instant (any value works; this one makes
`START_TS = 0`). -/
def wEnv : Env := ⟨63072000⟩

/-- All-zero seeded streams and identity entropy (used where distinct
uuid tokens matter). -/
def wStId : GenSt := stOf (fun _ => 0) (fun _ => 0) (fun i => i)

/-- All-zero streams everywhere. -/
def wSt0 : GenSt := stOf (fun _ => 0) (fun _ => 0) (fun _ => 0)

/-- Streams that open with one session of length two (the first geometric
draw is 2), all other draws zero. -/
def wStPair : GenSt :=
  stOf (fun i => if i = 0 then 1 else 0) (fun _ => 0) (fun i => i)

/-- The small configuration with the module's pool sizes and the identity
permutations of `[1, USER_POOL_SIZE]` and `[1, BOOK_POOL_SIZE]`. -/
def wCfgBig : Config :=
  { wCfg with
    userPool := USER_POOL_SIZE, bookPool := BOOK_POOL_SIZE,
    userMap := List.range' 1 USER_POOL_SIZE,
    bookMap := List.range' 1 BOOK_POOL_SIZE }

/-- Removing the element at `i` and putting it back in front permutes the
list. -/
theorem cons_getElem_eraseIdx_perm :
    ∀ (l : List Nat) (i : Nat) (h : i < l.length),
    (l[i] :: l.eraseIdx i).Perm l := by
  intro l
  induction l with
  | nil => intro i h; cases h
  | cons a tl ih =>
    intro i h
    match i with
    | 0 => simp
    | i + 1 =>
      have hi : i < tl.length := by simpa using h
      have hperm := (ih i hi).cons a
      have hswap : List.Perm (tl[i] :: a :: tl.eraseIdx i)
          (a :: tl[i] :: tl.eraseIdx i) := List.Perm.swap _ _ _
      have hstep : (a :: tl)[i + 1] :: (a :: tl).eraseIdx (i + 1)
          = tl[i] :: a :: tl.eraseIdx i := by simp
      rw [hstep]
      exact hswap.trans hperm

/-- Every result of the modelled `np.random.permutation` is a permutation
of its input pool. -/
theorem randPerm_perm :
    ∀ (n : Nat) (pool : List Nat), pool.length ≤ n →
    ∀ (st : GenSt), ((randPerm pool st).1).Perm pool := by
  intro n
  induction n with
  | zero =>
    intro pool hlen st
    have : pool = [] := List.length_eq_zero.mp (by omega)
    subst this
    rw [randPerm]
    simp
  | succ n ih =>
    intro pool hlen st
    rw [randPerm]
    by_cases h : pool = []
    · rw [dif_pos h]
      subst h
      simp
    · rw [dif_neg h]
      dsimp only
      have hp : 0 < pool.length := List.length_pos.mpr h
      have hidx : (npNat st).1 % pool.length < pool.length := Nat.mod_lt _ hp
      have herase : (pool.eraseIdx ((npNat st).1 % pool.length)).length ≤ n := by
        rw [List.length_eraseIdx_of_lt hidx]
        omega
      have ihp := ih _ herase (npNat st).2
      refine (ihp.cons _).trans ?_
      rw [List.getD_eq_getElem _ _ hidx]
      exact cons_getElem_eraseIdx_perm pool _ hidx

/-! ## Claim theorems -/

/-- C2: for every generated record, the `event_metadata` object's key
list is exactly the schema fixed by its `event_type` — `read_online ↦
{reading_duration_minutes, platform}`, `download ↦ {format, device_os,
app_version}`, `review ↦ {rating, review_text}`, `search ↦ {search_terms,
results_count}` — with the type always one of the four, no extra and no
missing keys. -/
theorem c2_metadata_keys_schema {cfg : Config} {env : Env} {fuel n : Nat}
    {st : GenSt} {recs : List EventRecord} {st' : GenSt}
    (h : generate_chunk cfg env fuel n st = .ok (recs, st')) :
    ∀ r ∈ recs,
      r.event_type ∈ EVENT_TYPES ∧
      r.event_metadata.map Prod.fst = schemaKeys r.event_type ∧
      schemaKeys "read_online" = ["reading_duration_minutes", "platform"] ∧
      schemaKeys "download" = ["format", "device_os", "app_version"] ∧
      schemaKeys "review" = ["rating", "review_text"] ∧
      schemaKeys "search" = ["search_terms", "results_count"] := by
  intro r hr
  obtain ⟨_, hok, _, _⟩ := generate_chunk_spec h
  obtain ⟨_, _, c3, c4, _, _⟩ := hok r hr
  exact ⟨c3, c4, rfl, rfl, rfl, rfl⟩

/-- C2 witness: a concrete run whose first record satisfies the schema
property. -/
theorem c2_metadata_keys_schema_witness :
    ((recsOf (generate_chunk wCfg wEnv 10 1 wSt0)).getD 0
      default).event_metadata.map Prod.fst =
    schemaKeys ((recsOf (generate_chunk wCfg wEnv 10 1 wSt0)).getD 0
      default).event_type := by
  rcases h : generate_chunk wCfg wEnv 10 1 wSt0 with e | pr
  · have hk : isOkE (generate_chunk wCfg wEnv 10 1 wSt0) = true := by decide
    rw [h] at hk
    simp [isOkE] at hk
  · obtain ⟨recs, st'⟩ := pr
    have hlen := (generate_chunk_spec h).1
    have h0 : 0 < recs.length := by omega
    have hmem : recs.getD 0 default ∈ recs := by
      rw [List.getD_eq_getElem _ _ h0]
      exact List.getElem_mem h0
    have := c2_metadata_keys_schema h (recs.getD 0 default) hmem
    simp only [recsOf]
    exact this.2.1

/-- C3: any two records of one generated chunk carrying the same
`session_id` have the same `user_id`, and their timestamps are
non-decreasing in emission order.  The hypothesis that the entropy stream
is injective expresses that distinct `uuid4()` draws yield distinct
tokens. -/
theorem c3_session_consistency {cfg : Config} {env : Env} {fuel n : Nat}
    {st : GenSt} {recs : List EventRecord} {st' : GenSt}
    (hinj : Function.Injective st.ent.s)
    (h : generate_chunk cfg env fuel n st = .ok (recs, st')) :
    ∀ (i j : Nat) (hi : i < recs.length) (hj : j < recs.length), i ≤ j →
      recs[i].session_id = recs[j].session_id →
      recs[i].user_id = recs[j].user_id ∧
      recs[i].event_timestamp ≤ recs[j].event_timestamp := by
  intro i j hi hj hij hsid
  rcases Nat.lt_or_ge i j with hlt | hge
  · have hpw := (generate_chunk_spec h).2.2.1
    have hrel := List.pairwise_iff_getElem.mp hpw i j hi hj hlt
    rcases hrel with ⟨hu, ht⟩ | ⟨k, l, hkl, ha, hb⟩
    · exact ⟨hu, ht⟩
    · exfalso
      have hs : st.ent.s k = st.ent.s l := by rw [← ha, hsid, hb]
      have := hinj hs
      omega
  · have : i = j := by omega
    subst this
    exact ⟨rfl, le_refl _⟩

/-- C3 witness: a concrete run opening with one session of two events;
both records share the session token, agree on the user and have ordered
timestamps. -/
theorem c3_session_consistency_witness :
    ((recsOf (generate_chunk wCfg wEnv 10 2 wStPair)).getD 0
      default).user_id =
      ((recsOf (generate_chunk wCfg wEnv 10 2 wStPair)).getD 1
        default).user_id ∧
    ((recsOf (generate_chunk wCfg wEnv 10 2 wStPair)).getD 0
      default).event_timestamp ≤
      ((recsOf (generate_chunk wCfg wEnv 10 2 wStPair)).getD 1
        default).event_timestamp := by
  rcases h : generate_chunk wCfg wEnv 10 2 wStPair with e | pr
  · have hk : isOkE (generate_chunk wCfg wEnv 10 2 wStPair) = true := by
      decide
    rw [h] at hk
    simp [isOkE] at hk
  · obtain ⟨recs, st'⟩ := pr
    have hlen := (generate_chunk_spec h).1
    have h0 : 0 < recs.length := by omega
    have h1 : 1 < recs.length := by omega
    have hinj : Function.Injective wStPair.ent.s := fun a b hab => hab
    have hsid : recs[0].session_id = recs[1].session_id := by
      have hd : ((recsOf (generate_chunk wCfg wEnv 10 2 wStPair)).getD 0
          default).session_id =
          ((recsOf (generate_chunk wCfg wEnv 10 2 wStPair)).getD 1
            default).session_id := by decide
      rw [h] at hd
      simp only [recsOf] at hd
      rw [List.getD_eq_getElem _ _ h0, List.getD_eq_getElem _ _ h1] at hd
      exact hd
    have := c3_session_consistency hinj h 0 1 h0 h1 (by omega) hsid
    simp only [recsOf]
    rw [List.getD_eq_getElem _ _ h0, List.getD_eq_getElem _ _ h1]
    exact this

/-- C4: every generated record's timestamp lies in the two-year window:
`START_TS ≤ event_timestamp ≤ END_TS`, with `START_TS = END_TS -
730*86400` fixed at run start. -/
theorem c4_timestamp_window {cfg : Config} {env : Env} {fuel n : Nat}
    {st : GenSt} {recs : List EventRecord} {st' : GenSt}
    (h : generate_chunk cfg env fuel n st = .ok (recs, st')) :
    ∀ r ∈ recs,
      env.startTs ≤ r.event_timestamp ∧ r.event_timestamp ≤ env.endTs ∧
      env.startTs = env.endTs - 63072000 := by
  intro r hr
  obtain ⟨_, hok, _, _⟩ := generate_chunk_spec h
  obtain ⟨_, _, _, _, c5, c6⟩ := hok r hr
  exact ⟨c5, c6, rfl⟩

/-- C4 witness: the first record of a concrete run sits in the window. -/
theorem c4_timestamp_window_witness :
    wEnv.startTs ≤ ((recsOf (generate_chunk wCfg wEnv 10 1 wSt0)).getD 0
      default).event_timestamp ∧
    ((recsOf (generate_chunk wCfg wEnv 10 1 wSt0)).getD 0
      default).event_timestamp ≤ wEnv.endTs := by
  rcases h : generate_chunk wCfg wEnv 10 1 wSt0 with e | pr
  · have hk : isOkE (generate_chunk wCfg wEnv 10 1 wSt0) = true := by decide
    rw [h] at hk
    simp [isOkE] at hk
  · obtain ⟨recs, st'⟩ := pr
    have hlen := (generate_chunk_spec h).1
    have h0 : 0 < recs.length := by omega
    have hmem : recs.getD 0 default ∈ recs := by
      rw [List.getD_eq_getElem _ _ h0]
      exact List.getElem_mem h0
    have := c4_timestamp_window h (recs.getD 0 default) hmem
    simp only [recsOf]
    exact ⟨this.1, this.2.1⟩

/-- C5: the identifier sampler rejects any rank beyond the pool and
re-draws (third conjunct: a too-large first draw makes the call step to a
fresh draw on the advanced state, rather than clamping); an accepted rank
is mapped through the run's fixed random permutation of `[1, pool]` (the
last conjunct says every modelled permutation is one); consequently every
record of a run with the module's pool sizes has `1 ≤ user_id ≤
USER_POOL_SIZE` and `1 ≤ book_id ≤ BOOK_POOL_SIZE`. -/
theorem c5_id_pools {cfg : Config} {env : Env} {fuel n : Nat}
    {st : GenSt} {recs : List EventRecord} {st' : GenSt}
    (hupool : cfg.userPool = USER_POOL_SIZE)
    (hbpool : cfg.bookPool = BOOK_POOL_SIZE)
    (hu : cfg.userMap.Perm (List.range' 1 cfg.userPool))
    (hb : cfg.bookMap.Perm (List.range' 1 cfg.bookPool))
    (h : generate_chunk cfg env fuel n st = .ok (recs, st')) :
    (∀ r ∈ recs,
      1 ≤ r.user_id ∧ r.user_id ≤ USER_POOL_SIZE ∧
      1 ≤ r.book_id ∧ r.book_id ≤ BOOK_POOL_SIZE) ∧
    (∀ (maxId : Nat) (a : Rat) (mp : List Nat) (fuel' : Nat) (st0 : GenSt),
      maxId < (npNat st0).1 + 1 →
      draw_zipf_id maxId a mp (fuel' + 1) st0 =
        draw_zipf_id maxId a mp fuel' (npNat st0).2) ∧
    (∀ (m : Nat) (pool : List Nat) (g : GenSt), pool.length ≤ m →
      ((randPerm pool g).1).Perm pool) := by
  refine ⟨?_, ?_, fun m pool g hm => randPerm_perm m pool hm g⟩
  · intro r hr
    obtain ⟨_, hok, _, _⟩ := generate_chunk_spec h
    obtain ⟨⟨ku, hu1, hu2, hu3⟩, ⟨kb, hb1, hb2, hb3⟩, _, _, _, _⟩ := hok r hr
    obtain ⟨bu1, bu2⟩ := getD_perm_range_bounds hu hu1 hu2
    obtain ⟨bb1, bb2⟩ := getD_perm_range_bounds hb hb1 hb2
    rw [hu3, hb3]
    rw [hupool] at bu2
    rw [hbpool] at bb2
    exact ⟨bu1, bu2, bb1, bb2⟩
  · intro maxId a mp fuel' st0 hgt
    rw [draw_zipf_id]
    rw [if_neg (by omega)]

/-- C5 witness: a run with the module pool sizes and the identity
permutations; the first record's identifiers are in range. -/
theorem c5_id_pools_witness :
    1 ≤ ((recsOf (generate_chunk wCfgBig wEnv 10 1 wSt0)).getD 0
      default).user_id ∧
    ((recsOf (generate_chunk wCfgBig wEnv 10 1 wSt0)).getD 0
      default).user_id ≤ USER_POOL_SIZE := by
  rcases h : generate_chunk wCfgBig wEnv 10 1 wSt0 with e | pr
  · have hk : isOkE (generate_chunk wCfgBig wEnv 10 1 wSt0) = true := by
      decide
    rw [h] at hk
    simp [isOkE] at hk
  · obtain ⟨recs, st'⟩ := pr
    have hlen := (generate_chunk_spec h).1
    have h0 : 0 < recs.length := by omega
    have hmem : recs.getD 0 default ∈ recs := by
      rw [List.getD_eq_getElem _ _ h0]
      exact List.getElem_mem h0
    have := (c5_id_pools rfl rfl (List.Perm.refl _) (List.Perm.refl _) h).1
      (recs.getD 0 default) hmem
    simp only [recsOf]
    exact ⟨this.1, this.2.1⟩

/-- C6: a successful `generate_chunk(N)` returns exactly `N` records;
the planned session lengths each lie in `[1, MAX_SESSION_LEN]` and their
total reaches `N` (the batch is truncated back down to `N`). -/
theorem c6_exact_row_count {cfg : Config} {env : Env} {fuel n : Nat}
    {st : GenSt} {recs : List EventRecord} {st' : GenSt}
    (h : generate_chunk cfg env fuel n st = .ok (recs, st')) :
    recs.length = n ∧
    n ≤ (draw_session_lengths n st).2.1 ∧
    (draw_session_lengths n st).2.1 = (draw_session_lengths n st).1.sum ∧
    (∀ l ∈ (draw_session_lengths n st).1, 1 ≤ l ∧ l ≤ MAX_SESSION_LEN) := by
  obtain ⟨d1, d2, d3, _, _, _, _⟩ := dsl_spec n st
  exact ⟨(generate_chunk_spec h).1, d1, d2, d3⟩

/-- C6 witness: a concrete three-row request yields exactly three
records. -/
theorem c6_exact_row_count_witness :
    (recsOf (generate_chunk wCfg wEnv 10 3 wSt0)).length = 3 := by
  rcases h : generate_chunk wCfg wEnv 10 3 wSt0 with e | pr
  · have hk : isOkE (generate_chunk wCfg wEnv 10 3 wSt0) = true := by decide
    rw [h] at hk
    simp [isOkE] at hk
  · obtain ⟨recs, st'⟩ := pr
    have := (c6_exact_row_count h).1
    simp only [recsOf]
    exact this

/-! ## C8 and C9 fixtures: pathological configurations -/

/-- The error value of a run, if any. -/
def errOf (x : Except GErr RunResult) : Option GErr :=
  match x with
  | .error e => some e
  | .ok _ => none

/-- A configuration with a non-positive user pool (the empty pool). -/
def cfgPool0 : Config := { wCfg with userPool := 0, userMap := [] }

/-- A configuration whose event-type probability table does not sum
to one (45+15+5+5 hundredths = 0.70). -/
def cfgBadProbs : Config := { wCfg with eventProbs := [45, 15, 5, 5] }

/-- The formalization of C8's asserted property: some fixed attempt cap
makes the identifier sampler finish (return or report an error other than
still-looping) on every configuration and stream state. -/
def zipfAttemptsCapped : Prop :=
  ∃ cap, ∀ (maxId : Nat) (a : Rat) (mp : List Nat) (st : GenSt),
    draw_zipf_id maxId a mp cap st ≠ Except.error GErr.outOfFuel

/-- C8 counterexample: no cap exists — with pool size 0 every drawn rank
exceeds the pool, so for every cap the sampler is still looping. -/
theorem c8_capped_counterexample : ¬ zipfAttemptsCapped := by
  rintro ⟨cap, hcap⟩
  exact hcap 0 (125/100) [] wSt0 (zipf_pool0 (125/100) [] cap wSt0)

/-- C8 amended: the rejection loop of `draw_zipf_id` has no attempt cap
and no error path.  With pool size 0 it is still looping after any number
of attempts, and in general it finishes for some number of attempts
exactly when the numpy stream eventually offers a rank within the
pool. -/
theorem c8_unbounded_rejection (maxId : Nat) (a : Rat) (mp : List Nat)
    (st : GenSt) :
    (∀ fuel, draw_zipf_id 0 a mp fuel st = Except.error GErr.outOfFuel) ∧
    ((∃ fuel v st', draw_zipf_id maxId a mp fuel st = .ok (v, st')) ↔
      (∃ k, st.np.s (st.np.i + k) + 1 ≤ maxId)) :=
  ⟨fun fuel => zipf_pool0 a mp fuel st, zipf_terminates_iff maxId a mp st⟩

/-- With an empty user pool, chunk generation never gets past the first
session's user draw, whatever the fuel. -/
theorem generate_chunk_pool0 (env : Env) (fuel n : Nat) (st : GenSt)
    (hn : n ≠ 0) :
    generate_chunk cfgPool0 env fuel n st = .error .outOfFuel := by
  rw [generate_chunk]
  obtain ⟨d1, d2, _, _, _, _, _⟩ := dsl_spec n st
  cases hl : (draw_session_lengths n st).1 with
  | nil =>
    exfalso
    rw [hl] at d2
    simp at d2
    omega
  | cons a as =>
    have hz : draw_zipf_id cfgPool0.userPool (125/100) cfgPool0.userMap fuel
        (entNat (draw_session_lengths n st).2.2).2 = .error .outOfFuel := by
      have h0 : cfgPool0.userPool = 0 := rfl
      rw [h0]
      exact zipf_pool0 _ _ _ _
    rw [genSessions, genSession, hz]

/-- The whole pipeline with an empty user pool hangs in the sampler (it
reports fuel exhaustion at every fuel, never a configuration error). -/
theorem mainRun_pool0 (gF lF : Nat) :
    mainRun cfgPool0 wEnv gF lF wSt0 = .error .outOfFuel := by
  rw [mainRun]
  rw [estimate_avg_row_bytes]
  rw [generate_chunk_pool0 wEnv gF cfgPool0.nSample wSt0 (by decide)]

/-- The formalization of C9's asserted property for one run: some fuels
make the program report the configuration error before generation. -/
def C9FailsFast (cfg : Config) (env : Env) (st : GenSt) : Prop :=
  ∃ gF lF, mainRun cfg env gF lF st = Except.error GErr.probsNotOne

/-- C9 counterexample: the empty user pool is an invalid configuration
(non-positive pool size), yet the program never reports a configuration
error — it hangs in the identifier sampler instead. -/
theorem c9_no_fail_fast_counterexample :
    cfgPool0.userPool = 0 ∧ ¬ C9FailsFast cfgPool0 wEnv wSt0 := by
  refine ⟨rfl, ?_⟩
  rintro ⟨gF, lF, h⟩
  rw [mainRun_pool0] at h
  simp at h

/-- C9 amended: the program performs no up-front configuration
validation.  A non-positive pool size makes it loop forever in the
identifier sampler (fuel exhaustion at every fuel, no error report), and
a probability table that does not sum to one is reported only when the
first categorical draw executes, inside sample-chunk generation —
before any file writing, but after event generation has begun. -/
theorem c9_validation_behavior :
    (∀ gF lF, mainRun cfgPool0 wEnv gF lF wSt0 =
      Except.error GErr.outOfFuel) ∧
    errOf (mainRun cfgBadProbs wEnv 10 10 wSt0) = some GErr.probsNotOne := by
  exact ⟨mainRun_pool0, by decide⟩

/-- C10: `estimate_avg_row_bytes` is total on a zero-row sample: the
divisor is `max(1, 0) = 1`, so the function returns the defined mean 0
(Python's `0.0`) rather than raising a division error. -/
theorem c10_estimate_total_zero_sample (cfg : Config) (env : Env)
    (fuel : Nat) (st : GenSt) :
    estimate_avg_row_bytes cfg env fuel 0 st = .ok ((0, 1), st) ∧
    avgVal (0, 1) = 0 := by
  constructor
  · rw [estimate_avg_row_bytes]
    have hgen : generate_chunk cfg env fuel 0 st = .ok ([], st) := by
      rw [generate_chunk]
      have h0 : draw_session_lengths 0 st = ([], 0, st) := rfl
      rw [h0]
      rw [genSessions]
      simp
    rw [hgen]
    rfl
  · simp [avgVal]

/-- C1: with the seeded numpy and Faker streams (and the run-start clock)
held fixed, two runs that differ only in the operating-system entropy
behind `uuid.uuid4()` produce different output files — the event and
session tokens are not derived from the seeded source, so a fixed seed
does not reproduce a byte-identical file. -/
theorem c1_uuid_breaks_seed_determinism :
    (stOf (fun _ => 0) (fun _ => 0) (fun _ => 7)).np =
      (stOf (fun _ => 0) (fun _ => 0) (fun _ => 8)).np ∧
    (stOf (fun _ => 0) (fun _ => 0) (fun _ => 7)).fk =
      (stOf (fun _ => 0) (fun _ => 0) (fun _ => 8)).fk ∧
    fileOf (mainRun wCfg wEnv 20 20
        (stOf (fun _ => 0) (fun _ => 0) (fun _ => 7))) ≠
      fileOf (mainRun wCfg wEnv 20 20
        (stOf (fun _ => 0) (fun _ => 0) (fun _ => 8))) := by
  exact ⟨rfl, rfl, by decide⟩

/-! ## Byte-count accounting for the writer -/

theorem byteLen_append (s t : String) :
    byteLen (s ++ t) = byteLen s + byteLen t := by
  unfold byteLen
  have h : (s ++ t).data = s.data ++ t.data := rfl
  rw [h, List.map_append, List.sum_append]

theorem renderRows_append (a b : List EventRecord) :
    renderRows (a ++ b) = renderRows a ++ renderRows b := by
  induction a with
  | nil => simp [renderRows]
  | cons r rs ih =>
    simp only [List.cons_append, renderRows, List.append_eq, ih,
      String.append_assoc]

theorem byteLen_renderRows_uniform {l : List EventRecord} {b : Nat}
    (h : ∀ r ∈ l, byteLen (renderRow r) = b) :
    byteLen (renderRows l) = l.length * b := by
  induction l with
  | nil => simp [renderRows, byteLen]
  | cons r rs ih =>
    rw [renderRows, byteLen_append, h r (List.mem_cons_self _ _),
      ih (fun x hx => h x (List.mem_cons_of_mem _ hx))]
    rw [List.length_cons]
    ring

/-- Invariant of the streaming loop: a successful exit lands exactly on
the planned row target, appends the generated records in order, and the
content grows by (header, when writing started here, plus) exactly the
rendered rows. -/
theorem writeLoop_ok_spec {cfg : Config} {env : Env}
    {genFuel targetRows : Nat} :
    ∀ {fuel rw : Nat} {c : String} {recs : List EventRecord} {first : Bool}
      {st : GenSt} {rw' : Nat} {c' : String} {recs' : List EventRecord}
      {first' : Bool} {st' : GenSt},
    writeLoop cfg env genFuel targetRows fuel rw c recs first st =
      .ok (rw', c', recs', first', st') →
    rw ≤ targetRows →
    rw' = targetRows ∧
    ∃ new, recs' = recs ++ new ∧ rw' = rw + new.length ∧
      ((first' = first ∧ new = [] ∧ c' = c) ∨
       (first' = false ∧
        c' = c ++ (if first then csvHeader else "") ++ renderRows new)) := by
  intro fuel
  induction fuel with
  | zero =>
    intro rw c recs first st rw' c' recs' first' st' h hle
    rw [writeLoop] at h
    split at h
    · cases h
    · simp only [Except.ok.injEq, Prod.mk.injEq] at h
      obtain ⟨h1, h2, h3, h4, h5⟩ := h
      subst h1; subst h2; subst h3; subst h4; subst h5
      exact ⟨by omega, [], by simp, by simp, Or.inl ⟨rfl, rfl, rfl⟩⟩
  | succ fuel ih =>
    intro rw c recs first st rw' c' recs' first' st' h hle
    rw [writeLoop] at h
    split at h
    · rename_i hlt
      split at h
      · cases h
      · rename_i df st1 heqg
        have hdf : df.length =
            (min cfg.chunkRows ((targetRows : Int) - (rw : Int))).toNat :=
          (generate_chunk_spec heqg).1
        have hdfle : rw + df.length ≤ targetRows := by
          have h1 : (min cfg.chunkRows ((targetRows : Int) - (rw : Int))) ≤
              (targetRows : Int) - (rw : Int) := min_le_right _ _
          have h2 := Int.toNat_le_toNat h1
          rw [hdf]
          omega
        obtain ⟨ht, new2, hrecs, hcount, hdisj⟩ := ih h hdfle
        refine ⟨ht, df ++ new2, ?_, ?_, ?_⟩
        · rw [hrecs, List.append_assoc]
        · rw [hcount, List.length_append]
          omega
        · rcases hdisj with ⟨hf, hn, hc⟩ | ⟨hf, hc⟩
          · refine Or.inr ⟨hf, ?_⟩
            rw [hc, hn, List.append_nil]
          · refine Or.inr ⟨hf, ?_⟩
            rw [hc, renderRows_append]
            simp [String.append_assoc]
    · simp only [Except.ok.injEq, Prod.mk.injEq] at h
      obtain ⟨h1, h2, h3, h4, h5⟩ := h
      subst h1; subst h2; subst h3; subst h4; subst h5
      rename_i hge
      exact ⟨by omega, [], by simp, by simp, Or.inl ⟨rfl, rfl, rfl⟩⟩

/-- A numpy stream under which the one-row size sample is a `review`
event with a 19-word sentence (draw 3 selects the event type, draw 6 the
word count) while every row written afterwards is a `read_online` event
with minimal metadata: the sampled row is 277 bytes against 175 bytes
per written row, so the mean-row estimate overshoots the written rows.
Rows differ in size only through the event-type name and the metadata
object — the token and timestamp fields are fixed-width as in the
source. -/
def npC7 : Nat → Nat := fun i => if i = 3 then 2 else if i = 6 then 11 else 0

/-- The run state for the undershoot counterexample. -/
def stC7 : GenSt := stOf npC7 (fun _ => 0) (fun _ => 7)

/-- The undershoot configuration: a 1200-byte budget. -/
def cfgC7 : Config := { wCfg with targetBytes := 1200 }

/-- C7 counterexample: a run that completes normally yet leaves the final
file below the configured byte budget — the sample chunk's single review
row (long sentence) inflates the mean-row estimate, the main loop writes
too few of the smaller read_online rows, and the single-shot top-up,
sized from the same inflated estimate, undershoots with no further
correction. -/
theorem c7_undershoot_counterexample :
    isOkR (mainRun cfgC7 wEnv 20 20 stC7) = true ∧
    byteLen (fileOf (mainRun cfgC7 wEnv 20 20 stC7)) = 1128 ∧
    1128 < cfgC7.targetBytes := by
  exact ⟨by decide, by decide, by decide⟩

/-- C7 amended: when the estimated mean is exact — every written row
serializes to the same `b` bytes the sample averaged — a completed run's
final file reaches the byte budget and overshoots by less than one row
plus the header; with heterogeneous rows the single-shot top-up may
under- or overshoot (see the counterexample). -/
theorem c7_size_convergence_uniform_rows {cfg : Config} {env : Env}
    {gF lF : Nat} {st : GenSt} {res : RunResult} {b : Nat}
    (h : mainRun cfg env gF lF st = .ok res)
    (havg : res.avgRowBytes.1 = b * res.avgRowBytes.2)
    (hD : 0 < res.avgRowBytes.2)
    (hbpos : 0 < b)
    (huni : ∀ r ∈ res.records, byteLen (renderRow r) = b) :
    cfg.targetBytes ≤ byteLen res.file ∧
    byteLen res.file ≤ cfg.targetBytes + b + byteLen csvHeader := by
  rw [mainRun] at h
  split at h
  · cases h
  · rename_i avg st1 heqe
    split at h
    · cases h
    · rename_i havg0
      split at h
      · cases h
      · rename_i rw content recs first st2 heqw
        split at h
        · cases h
        · rename_i hfirst
          obtain ⟨hrwT, new, hrecs, hcnt, hdisj⟩ :=
            writeLoop_ok_spec heqw (Nat.zero_le _)
          split at h
          · rename_i hszlt
            split at h
            · split at h
              · cases h
              · rename_i df st3 heqg
                have hres := Except.ok.inj h
                subst hres
                have havg' : avg.1 = b * avg.2 := havg
                have hD' : 0 < avg.2 := hD
                have huni' : ∀ r ∈ recs ++ df, byteLen (renderRow r) = b :=
                  huni
                show cfg.targetBytes ≤ byteLen (content ++ renderRows df) ∧
                  byteLen (content ++ renderRows df) ≤
                    cfg.targetBytes + b + byteLen csvHeader
                -- bytes of the corrective chunk
                have hlen_df := (generate_chunk_spec heqg).1
                have huni_df : ∀ r ∈ df, byteLen (renderRow r) = b :=
                  fun r hr => huni' r (List.mem_append_right _ hr)
                have hbl_df : byteLen (renderRows df) = df.length * b :=
                  byteLen_renderRows_uniform huni_df
                have hdiv : (cfg.targetBytes - byteLen content) * avg.2 /
                    avg.1 = (cfg.targetBytes - byteLen content) / b := by
                  rw [havg']
                  exact Nat.mul_div_mul_right _ _ hD'
                rw [byteLen_append, hbl_df, hlen_df, hdiv]
                have hdm := Nat.div_add_mod (cfg.targetBytes - byteLen content) b
                have hmod := Nat.mod_lt (cfg.targetBytes - byteLen content) hbpos
                have hexp : ((cfg.targetBytes - byteLen content) / b + 1) * b =
                    b * ((cfg.targetBytes - byteLen content) / b) + b := by
                  ring
                rw [hexp]
                omega
            · rename_i hex
              exact absurd (Nat.succ_pos _) hex
          · rename_i hszge
            have hres := Except.ok.inj h
            subst hres
            have havg' : avg.1 = b * avg.2 := havg
            have hD' : 0 < avg.2 := hD
            have huni' : ∀ r ∈ recs, byteLen (renderRow r) = b := huni
            show cfg.targetBytes ≤ byteLen content ∧
              byteLen content ≤ cfg.targetBytes + b + byteLen csvHeader
            rcases hdisj with ⟨hf, hn, hc⟩ | ⟨hf, hc⟩
            · -- the loop body never ran; contradicts the existing file
              subst hf
              simp at hfirst
            · -- content = header ++ rows, all rows of size b
              have hrecs' : recs = new := by simpa using hrecs
              have huni_new : ∀ r ∈ new, byteLen (renderRow r) = b := by
                intro r hr
                exact huni' r (by rw [hrecs']; exact hr)
              have hbl : byteLen content =
                  byteLen csvHeader + new.length * b := by
                rw [hc]
                simp only [if_pos rfl]
                rw [byteLen_append, byteLen_append,
                  byteLen_renderRows_uniform huni_new]
                simp [byteLen]
              have hTdiv : cfg.targetBytes * avg.2 / avg.1 =
                  cfg.targetBytes / b := by
                rw [havg']
                exact Nat.mul_div_mul_right _ _ hD'
              have hnew_len : new.length = cfg.targetBytes / b := by
                rw [hTdiv] at hrwT
                omega
              obtain ⟨q, hq⟩ : ∃ q, cfg.targetBytes / b = q := ⟨_, rfl⟩
              have hmul : b * q ≤ cfg.targetBytes := by
                rw [← hq, Nat.mul_comm]
                exact Nat.div_mul_le_self _ _
              have hbl2 : byteLen content = byteLen csvHeader + b * q := by
                rw [hbl, hnew_len, hq]
                ring
              obtain ⟨P, hP⟩ : ∃ P, b * q = P := ⟨_, rfl⟩
              rw [hP] at hmul hbl2
              omega

/-- C7 amended witness: a concrete uniform-row run (every row 175 bytes,
estimate exactly 175) whose final size lands in the guaranteed band. -/
theorem c7_size_convergence_uniform_rows_witness :
    (400 : Nat) ≤ byteLen (fileOf (mainRun
      { wCfg with targetBytes := 400 } wEnv 20 20
      (stOf (fun _ => 0) (fun _ => 0) (fun _ => 7)))) ∧
    byteLen (fileOf (mainRun { wCfg with targetBytes := 400 } wEnv 20 20
      (stOf (fun _ => 0) (fun _ => 0) (fun _ => 7)))) ≤
      400 + 175 + byteLen csvHeader := by
  rcases h : mainRun { wCfg with targetBytes := 400 } wEnv 20 20
      (stOf (fun _ => 0) (fun _ => 0) (fun _ => 7)) with e | res
  · have hk : isOkR (mainRun { wCfg with targetBytes := 400 } wEnv 20 20
        (stOf (fun _ => 0) (fun _ => 0) (fun _ => 7))) = true := by decide
    rw [h] at hk
    simp [isOkR] at hk
  · have hd : (resOf (mainRun { wCfg with targetBytes := 400 } wEnv 20 20
        (stOf (fun _ => 0) (fun _ => 0) (fun _ => 7)))).map
        (fun r => r.avgRowBytes) = some (175, 1) := by decide
    rw [h] at hd
    simp [resOf] at hd
    have havg : res.avgRowBytes.1 = 175 * res.avgRowBytes.2 := by
      rw [hd]
      simp
    have hD : 0 < res.avgRowBytes.2 := by
      rw [hd]
      simp
    have huni : ∀ r ∈ res.records, byteLen (renderRow r) = 175 := by
      have hu : (resOf (mainRun { wCfg with targetBytes := 400 } wEnv 20 20
          (stOf (fun _ => 0) (fun _ => 0) (fun _ => 7)))).map
          (fun r => r.records.all
            (fun rec0 => byteLen (renderRow rec0) == 175)) = some true := by
        decide
      rw [h] at hu
      simp [resOf, List.all_eq_true] at hu
      intro r hr
      exact hu r hr
    have := c7_size_convergence_uniform_rows h havg hD (by omega) huni
    exact this

end EventStreamGen
